import Mathlib

/-!
# The `customer_delete` tool of `examples/with-mcp-elicitation/go-server/main.go`

A shallow embedding of `deleteCustomer` and of the library calls it makes.

* Go strings are modelled by `String`: sequences of Unicode code points.  Every string
  the handler receives was decoded from JSON and is therefore valid UTF-8, so the
  rune-level reading of `strings.TrimSpace` and `strings.EqualFold` is the one that applies.
* A value of Go type `any` found in `ElicitResult.Content` is a decoded JSON value (`Value`).
* The call `req.Session.Elicit` is the handler's only effect.  The handler is split at this
  call: `deleteCustomer params` gives the request that is sent (lines 24-37) together with
  the code that runs on the values `Elicit` returns (lines 38-65); `runTool` joins the two
  for a given session.
-/

/-! ## Package `unicode` -/

namespace unicode

/-- Go's `unicode.IsSpace`: the code points with the Unicode property White_Space,
`U+0009..U+000D`, `U+0020`, `U+0085`, `U+00A0`, `U+1680`, `U+2000..U+200A`, `U+2028`,
`U+2029`, `U+202F`, `U+205F` and `U+3000`. -/
def IsSpace (r : Char) : Bool :=
  let n := r.toNat
  (0x09 ≤ n && n ≤ 0x0D) || n == 0x20 || n == 0x85 || n == 0xA0 || n == 0x1680 ||
  (0x2000 ≤ n && n ≤ 0x200A) || n == 0x2028 || n == 0x2029 || n == 0x202F ||
  n == 0x205F || n == 0x3000

/-- Go's `unicode.SimpleFold` on the fold orbits of the ASCII letters: the next larger code
point of the orbit, or its smallest one when there is none larger.  The orbits are `{A, a}`,
..., `{Z, z}`, except for `{K, k, U+212A}` (Kelvin sign) and `{S, s, U+017F}` (long s).
The orbits made of non-ASCII code points only are not listed (such a code point is returned
unchanged): `strings.EqualFold` calls `SimpleFold` on the smaller rune of a mismatching pair
and on its successive images, and in this program one rune of every pair is a letter of the
ASCII literal `"yes"`, so no other entry of the table is ever consulted. -/
def SimpleFold (r : Nat) : Nat :=
  if r = 0x4B then 0x6B
  else if r = 0x53 then 0x73
  else if r = 0x6B then 0x212A
  else if r = 0x73 then 0x17F
  else if r = 0x17F then 0x53
  else if r = 0x212A then 0x4B
  else if 0x41 ≤ r ∧ r ≤ 0x5A then r + 0x20
  else if 0x61 ≤ r ∧ r ≤ 0x7A then r - 0x20
  else r

end unicode

/-! ## Package `strings` -/

namespace strings

/-- Go's `strings.TrimLeftFunc` on runes: drop the leading runes satisfying `f`. -/
def TrimLeftFunc (f : Char → Bool) (s : List Char) : List Char :=
  s.dropWhile f

/-- Go's `strings.TrimRightFunc` on runes: drop the trailing runes satisfying `f`. -/
def TrimRightFunc (f : Char → Bool) (s : List Char) : List Char :=
  (s.reverse.dropWhile f).reverse

/-- Go's `strings.TrimSpace`: `s` without its leading and trailing white space, as defined
by Unicode (`unicode.IsSpace`). -/
def TrimSpace (s : String) : String :=
  ⟨TrimRightFunc unicode.IsSpace (TrimLeftFunc unicode.IsSpace s.data)⟩

/-- The inner loop of `strings.EqualFold`,
`for r != sr && r < tr { r = unicode.SimpleFold(r) }`, run for at most `fuel` iterations
(`foldLoop_exits` shows that the three iterations `foldStep` allows always reach the exit
condition). -/
def foldLoop (sr tr : Nat) : Nat → Nat → Nat
  | 0, r => r
  | fuel + 1, r =>
    if r ≠ sr ∧ r < tr then foldLoop sr tr fuel (unicode.SimpleFold r) else r

/-- One iteration of the rune loop of `strings.EqualFold`: whether the runes `sr` and `tr`
match.  Equal runes match; otherwise the runes are ordered, two ASCII runes match when the
smaller is an upper-case letter and the larger its lower-case form, and in the general case
the larger rune has to be met when walking the fold orbit of the smaller one. -/
def foldStep (sr tr : Nat) : Bool :=
  if tr = sr then true
  else
    let lo := min sr tr
    let hi := max sr tr
    if hi < 0x80 then
      decide (0x41 ≤ lo ∧ lo ≤ 0x5A ∧ hi = lo + 0x20)
    else
      decide (foldLoop lo hi 3 (unicode.SimpleFold lo) = hi)

/-- The rune loop of `strings.EqualFold`: `s` is consumed rune by rune against `t`; running
out of `t` first, or a pair of runes that does not match, gives `false`, and at the end of
`s` the answer is whether `t` is used up too.  (Go runs a byte loop over the common ASCII
prefix first; on ASCII runes it takes the same decisions as this loop.) -/
def EqualFold.loop : List Char → List Char → Bool
  | [], t => t.isEmpty
  | _ :: _, [] => false
  | sr :: s, tr :: t => foldStep sr.toNat tr.toNat && EqualFold.loop s t

/-- Go's `strings.EqualFold`: whether `s` and `t` are equal under simple Unicode case
folding. -/
def EqualFold (s t : String) : Bool :=
  EqualFold.loop s.data t.data

end strings

/-! ## Errors and package `fmt` -/

/-- A Go `error` value: either an error that wraps nothing, or the `*fmt.wrapError` that
`fmt.Errorf` builds for a format with the verb `%w`. -/
inductive GoError where
  | plain (msg : String)
  | wrapError (msg : String) (err : GoError)

namespace GoError

/-- The method `Error()`: the message of the error. -/
def Error : GoError → String
  | plain msg => msg
  | wrapError msg _ => msg

/-- The method `Unwrap()` as seen by `errors.Unwrap`: the wrapped error, if any. -/
def Unwrap : GoError → Option GoError
  | plain _ => none
  | wrapError _ err => some err

end GoError

/-- A value of Go type `any` decoded from JSON: `nil`, `bool`, `float64`, `string`,
`[]any` or `map[string]any`.  A `float64` carries the text that the verb `%v` prints for it
(its formatting is not computed here); a map is given by its entries. -/
inductive Value where
  | nil
  | bool (b : Bool)
  | float64 (text : String)
  | string (s : String)
  | slice (elems : List Value)
  | map (entries : List (String × Value))

namespace fmt

/-- Formatting with one operand: the first occurrence of `%` followed by `verb` in the
format is replaced by the operand text `arg`; the rest of the format is copied.  (Every
format of this program has exactly one verb and is given exactly one operand.) -/
def doPrintf (verb : Char) (arg : List Char) : List Char → List Char
  | [] => []
  | [c] => [c]
  | c :: v :: rest =>
    if c = '%' ∧ v = verb then arg ++ rest else c :: doPrintf verb arg (v :: rest)

/-- Go's `fmt.Sprintf(format, a)` for a format with the single verb `%s` and a string
operand. -/
def Sprintf (format : String) (a : String) : String :=
  ⟨doPrintf 's' a.data format.data⟩

/-- Go's `fmt.Errorf(format, err)` for a format with the single verb `%w`: the message is
the format with `%w` replaced by `err.Error()`, and the new error wraps `err`. -/
def Errorf (format : String) (err : GoError) : GoError :=
  .wrapError ⟨doPrintf 'w' err.Error.data format.data⟩ err

/-- Insert a printed map entry before the first entry with a larger key (keys are compared
rune by rune, which on valid UTF-8 is Go's byte-wise string order). -/
def insertEntry (e : String × String) : List (String × String) → List (String × String)
  | [] => [e]
  | x :: xs => if e.1.data < x.1.data then e :: x :: xs else x :: insertEntry e xs

/-- The printed entries of a map in ascending key order, the order in which `fmt` prints
a map. -/
def sortEntries : List (String × String) → List (String × String)
  | [] => []
  | e :: es => insertEntry e (sortEntries es)

mutual
/-- How the verb `%v` prints a decoded JSON value: `<nil>`, `true` or `false`, the number,
the string itself, `[e1 e2 ...]` for a slice and `map[k1:v1 k2:v2 ...]` for a map. -/
def printValue : Value → String
  | .nil => "<nil>"
  | .bool b => if b then "true" else "false"
  | .float64 text => text
  | .string s => s
  | .slice elems => "[" ++ " ".intercalate (printValues elems) ++ "]"
  | .map entries =>
    "map[" ++ " ".intercalate ((sortEntries (printEntries entries)).map
      (fun e => e.1 ++ ":" ++ e.2)) ++ "]"
/-- The elements of a slice, each printed by `printValue`. -/
def printValues : List Value → List String
  | [] => []
  | v :: vs => printValue v :: printValues vs
/-- The entries of a map, each value printed by `printValue`. -/
def printEntries : List (String × Value) → List (String × String)
  | [] => []
  | (k, v) :: rest => (k, printValue v) :: printEntries rest
end

/-- Go's `fmt.Sprint(a)` for one operand: the operand in its default format. -/
def Sprint (a : Value) : String :=
  printValue a

end fmt

/-! ## The types of `jsonschema` and `mcp` that the handler uses -/

namespace jsonschema

/-- The fields of `jsonschema.Schema` that the handler sets; all others keep their zero
value. -/
inductive Schema where
  | mk (Type_ Description : String) (Properties : List (String × Schema))
      (Required : List String)

namespace Schema

/-- Field `Type`. -/
def type : Schema → String
  | mk t _ _ _ => t

/-- Field `Description`. -/
def description : Schema → String
  | mk _ d _ _ => d

/-- Field `Properties`. -/
def properties : Schema → List (String × Schema)
  | mk _ _ p _ => p

/-- Field `Required`. -/
def required : Schema → List String
  | mk _ _ _ r => r

end Schema

end jsonschema

namespace mcp

/-- The fields of `mcp.ElicitParams` that the handler sets. -/
structure ElicitParams where
  Message : String
  RequestedSchema : Option jsonschema.Schema

/-- The fields of `mcp.ElicitResult` that the handler reads. -/
structure ElicitResult where
  Action : String
  Content : List (String × Value)

/-- What `Session.Elicit` returns: a result pointer, possibly `nil`, and an error, possibly
`nil`. -/
structure ElicitReturn where
  result : Option ElicitResult
  err : Option GoError

/-- An `mcp.Content` item; the handler builds `*mcp.TextContent` only. -/
inductive Content where
  | TextContent (Text : String)

/-- The fields of `mcp.CallToolResult`; the handler sets `Content` and leaves `IsError` at
its zero value. -/
structure CallToolResult where
  Content : List Content
  IsError : Bool := false

end mcp

/-! ## The handler -/

/-- The tool input. -/
structure DeleteCustomerParams where
  CustomerID : String

/-- The three values `deleteCustomer` returns: `(*mcp.CallToolResult, any, error)`. -/
structure ToolReturn where
  result : Option mcp.CallToolResult
  output : Option Value
  err : Option GoError

/-- A handler stopped at its call of `req.Session.Elicit`: the request it passes, and the
code it runs on what the call returns. -/
structure Suspended where
  request : mcp.ElicitParams
  resume : mcp.ElicitReturn → ToolReturn

/-- Lines 24-31: the schema of the elicitation request. -/
def deleteCustomer.schema : jsonschema.Schema :=
  .mk "object" "Confirm the deletion of the data."
    [("confirm", .mk "boolean" "Confirm the deletion of the data." [] [])]
    ["confirm"]

/-- Lines 45-52: the type switch on the submitted value. -/
def deleteCustomer.coerce (value : Value) : Bool :=
  match value with
  | .bool typed => typed
  | .string typed => strings.EqualFold (strings.TrimSpace typed) "yes"
  | _ => strings.EqualFold (strings.TrimSpace (fmt.Sprint value)) "yes"

/-- Lines 42-54: the value of `confirmed` once the elicitation has returned `result`; it is
`false` unless the result is present, its action is "accept" and the content has the key
"confirm". -/
def deleteCustomer.confirmed (result : Option mcp.ElicitResult) : Bool :=
  match result with
  | none => false
  | some result =>
    if result.Action = "accept" then
      match result.Content.lookup "confirm" with
      | some value => deleteCustomer.coerce value
      | none => false
    else false

/-- Lines 56-59: the text of the response. -/
def deleteCustomer.message (confirmed : Bool) (params : DeleteCustomerParams) : String :=
  let message := fmt.Sprintf "Deletion cancelled for %s." params.CustomerID
  if confirmed then fmt.Sprintf "Customer %s deleted." params.CustomerID else message

/-- The handler `deleteCustomer` of `main.go`. -/
def deleteCustomer (params : DeleteCustomerParams) : Suspended where
  request := { Message := "", RequestedSchema := some deleteCustomer.schema }
  resume := fun ret =>
    match ret.err with
    | some err =>
      { result := none, output := none, err := some (fmt.Errorf "eliciting failed: %w" err) }
    | none =>
      { result := some
          { Content := [.TextContent
              (deleteCustomer.message (deleteCustomer.confirmed ret.result) params)] },
        output := none, err := none }

/-- Serving one call: the session answers the request of the suspended handler and the
handler resumes with the answer. -/
def runTool (Elicit : mcp.ElicitParams → mcp.ElicitReturn) (h : Suspended) : ToolReturn :=
  h.resume (Elicit h.request)

/-! ## The specification's wording -/

/-- The field value as the closed variant of the specification's design notes: a boolean,
a string, or anything else given by its string representation. -/
inductive FieldValue where
  | bool (b : Bool)
  | string (s : String)
  | other (representation : String)

/-- The variant that a submitted value falls into. -/
def FieldValue.ofValue : Value → FieldValue
  | .bool b => .bool b
  | .string s => .string s
  | v => .other (fmt.Sprint v)

/-- The three-way match of the design notes, for a given string comparison `rule`: a boolean
is used directly, a string is compared by `rule`, and so is the representation of anything
else. -/
def FieldValue.threeWayMatch (rule : String → Bool) : FieldValue → Bool
  | .bool b => b
  | .string s => rule s
  | .other representation => rule representation

/-- Simple Unicode case folding of a rune, on the runes that fold to an ASCII letter: the
letters `A`-`Z` fold to `a`-`z`, the long s `U+017F` folds to `s` and the Kelvin sign
`U+212A` to `k`.  A rune that folds to a non-ASCII rune is left as it is, which makes no
difference when a text is compared with an ASCII text. -/
def caseFold (c : Char) : Char :=
  if c.toNat = 0x17F then 's'
  else if c.toNat = 0x212A then 'k'
  else c.toLower

/-- Case-insensitive equality in the specification's sense: the two strings have the same
runes once every rune is case folded. -/
def equalsIgnoringCase (s t : String) : Bool :=
  s.data.map caseFold == t.data.map caseFold

/-- The upper/lower-case spellings of the letters y-e-s. -/
def yesSpellings : List String :=
  ["yes", "yeS", "yEs", "yES", "Yes", "YeS", "YEs", "YES"]

/-- A string made of white space only. -/
def isBlank (s : String) : Bool :=
  s.data.all unicode.IsSpace

/-! ## Library facts -/

/-- An upper-case ASCII letter folds to its lower-case form. -/
theorem unicode.SimpleFold_upper (r : Nat) (h1 : 0x41 ≤ r) (h2 : r ≤ 0x5A) :
    unicode.SimpleFold r = r + 0x20 := by
  unfold unicode.SimpleFold
  split_ifs <;> omega

/-- A lower-case ASCII letter other than `k` and `s` folds to its upper-case form. -/
theorem unicode.SimpleFold_lower (r : Nat) (h1 : 0x61 ≤ r) (h2 : r ≤ 0x7A) (hk : r ≠ 0x6B)
    (hs : r ≠ 0x73) : unicode.SimpleFold r = r - 0x20 := by
  unfold unicode.SimpleFold
  split_ifs <;> omega

/-- A rune outside the listed orbits is left unchanged. -/
theorem unicode.SimpleFold_fixed (r : Nat) (h1 : r < 0x41 ∨ (0x5A < r ∧ r < 0x61) ∨ 0x7A < r)
    (h2 : r ≠ 0x17F) (h3 : r ≠ 0x212A) : unicode.SimpleFold r = r := by
  unfold unicode.SimpleFold
  split_ifs <;> omega

/-- Every rune comes back to itself after one, two or three applications of `SimpleFold`:
no fold orbit of the table has more than three members. -/
theorem unicode.SimpleFold_orbit (r : Nat) :
    unicode.SimpleFold r = r ∨ unicode.SimpleFold (unicode.SimpleFold r) = r ∨
      unicode.SimpleFold (unicode.SimpleFold (unicode.SimpleFold r)) = r := by
  by_cases hK : r = 0x4B
  · subst hK; right; right; rfl
  by_cases hS : r = 0x53
  · subst hS; right; right; rfl
  by_cases hk : r = 0x6B
  · subst hk; right; right; rfl
  by_cases hs : r = 0x73
  · subst hs; right; right; rfl
  by_cases hl : r = 0x17F
  · subst hl; right; right; rfl
  by_cases hkel : r = 0x212A
  · subst hkel; right; right; rfl
  by_cases hu : 0x41 ≤ r ∧ r ≤ 0x5A
  · right; left
    rw [unicode.SimpleFold_upper r hu.1 hu.2,
      unicode.SimpleFold_lower (r + 0x20) (by omega) (by omega) (by omega) (by omega)]
    omega
  by_cases hlo : 0x61 ≤ r ∧ r ≤ 0x7A
  · right; left
    rw [unicode.SimpleFold_lower r hlo.1 hlo.2 hk hs,
      unicode.SimpleFold_upper (r - 0x20) (by omega) (by omega)]
    omega
  · left
    exact unicode.SimpleFold_fixed r (by omega) hl hkel

/-- The inner loop of `EqualFold` leaves by its own condition within the three iterations
that `foldStep` gives it: the bound never cuts the loop short. -/
theorem strings.foldLoop_exits (sr tr : Nat) :
    ¬ (strings.foldLoop sr tr 3 (unicode.SimpleFold sr) ≠ sr ∧
        strings.foldLoop sr tr 3 (unicode.SimpleFold sr) < tr) := by
  simp only [strings.foldLoop]
  rcases unicode.SimpleFold_orbit sr with h | h | h
  · rw [h]; simp
  · split_ifs <;> omega
  · split_ifs <;> omega

/-- A rune matches a lower-case letter `l` other than `k` and `s` exactly when it is `l` or
its upper-case form. -/
theorem strings.foldStep_letter (c l : Nat) (h1 : 0x61 ≤ l) (h2 : l ≤ 0x7A) (hk : l ≠ 0x6B)
    (hs : l ≠ 0x73) : strings.foldStep c l = true ↔ c = l ∨ c + 0x20 = l := by
  unfold strings.foldStep
  by_cases h : l = c
  · simp [h]
  rcases Nat.lt_or_gt_of_ne h with hlt | hgt
  · have e1 : min c l = l := by omega
    have e2 : max c l = c := by omega
    simp only [e1, e2, unicode.SimpleFold_lower l h1 h2 hk hs, if_neg h]
    by_cases hc : c < 0x80
    · simp [hc]; omega
    · have e3 : strings.foldLoop l c 3 (l - 0x20) = l := by
        simp only [strings.foldLoop]
        rw [if_pos (by omega),
          unicode.SimpleFold_upper (l - 0x20) (by omega) (by omega),
          if_neg (by omega)]
        omega
      simp [hc, e3]; omega
  · have e1 : min c l = c := by omega
    have e2 : max c l = l := by omega
    have e3 : l < 0x80 := by omega
    simp only [e1, e2, if_neg h, if_pos e3]
    simp
    omega

/-- A rune matches `s` exactly when it is `s`, `S` or the long s `U+017F`. -/
theorem strings.foldStep_s (c : Nat) :
    strings.foldStep c 0x73 = true ↔ c = 0x73 ∨ c = 0x53 ∨ c = 0x17F := by
  unfold strings.foldStep
  by_cases h : 0x73 = c
  · simp [← h]
  rcases Nat.lt_or_gt_of_ne h with hlt | hgt
  · have e1 : min c 0x73 = 0x73 := by omega
    have e2 : max c 0x73 = c := by omega
    simp only [e1, e2, if_neg h, show unicode.SimpleFold 0x73 = 0x17F from rfl]
    by_cases hc : c < 0x80
    · simp [hc]; omega
    · by_cases hl : 0x17F < c
      · have e3 : strings.foldLoop 0x73 c 3 0x17F = 0x73 := by
          simp only [strings.foldLoop, show unicode.SimpleFold 0x17F = 0x53 from rfl,
            show unicode.SimpleFold 0x53 = 0x73 from rfl]
          rw [if_pos (by omega), if_pos (by omega), if_neg (by omega)]
        simp [hc, e3]; omega
      · have e3 : strings.foldLoop 0x73 c 3 0x17F = 0x17F := by
          simp only [strings.foldLoop]
          rw [if_neg (by omega)]
        simp [hc, e3]; omega
  · have e1 : min c 0x73 = c := by omega
    have e2 : max c 0x73 = 0x73 := by omega
    simp only [e1, e2, if_neg h]
    simp
    omega

/-- The code point of the rune built from a number below the surrogate range. -/
theorem char_toNat_ofNat (n : Nat) (h : n < 0xD800) : (Char.ofNat n).toNat = n := by
  have hv : n.isValidChar := Or.inl h
  simp [Char.ofNat, hv, Char.toNat, Char.ofNatAux]
  rfl

/-- Runes with the same code point are equal. -/
theorem char_eq_of_toNat_eq {a b : Char} (h : a.toNat = b.toNat) : a = b := by
  rw [← Char.ofNat_toNat a, ← Char.ofNat_toNat b, h]

/-- Lower-casing gives the lower-case letter `l` exactly for `l` and its upper-case form. -/
theorem char_toLower_eq_letter (c l : Char) (h1 : 0x61 ≤ l.toNat) (h2 : l.toNat ≤ 0x7A) :
    c.toLower = l ↔ c.toNat = l.toNat ∨ c.toNat + 0x20 = l.toNat := by
  unfold Char.toLower
  simp only []
  split_ifs with h
  · constructor
    · intro e
      right
      rw [← e, char_toNat_ofNat _ (by omega)]
    · intro e
      rcases e with e | e
      · omega
      · rw [e, Char.ofNat_toNat]
  · constructor
    · intro e; left; rw [e]
    · intro e
      rcases e with e | e
      · exact char_eq_of_toNat_eq e
      · omega

/-- Case folding gives the lower-case letter `l`, other than `k` and `s`, exactly for `l`
and its upper-case form. -/
theorem caseFold_eq_letter (c l : Char) (h1 : 0x61 ≤ l.toNat) (h2 : l.toNat ≤ 0x7A)
    (hk : l.toNat ≠ 0x6B) (hs : l.toNat ≠ 0x73) :
    caseFold c = l ↔ c.toNat = l.toNat ∨ c.toNat + 0x20 = l.toNat := by
  unfold caseFold
  split_ifs with e1 e2
  · constructor
    · intro e; exact absurd (congrArg Char.toNat e).symm hs
    · intro e; omega
  · constructor
    · intro e; exact absurd (congrArg Char.toNat e).symm hk
    · intro e; omega
  · exact char_toLower_eq_letter c l h1 h2

/-- Case folding gives `s` exactly for `s`, `S` and the long s. -/
theorem caseFold_eq_s (c : Char) :
    caseFold c = 's' ↔ c.toNat = 0x73 ∨ c.toNat = 0x53 ∨ c.toNat = 0x17F := by
  have hcs : ('s' : Char).toNat = 0x73 := rfl
  unfold caseFold
  split_ifs with e1 e2
  · simp [e1]
  · constructor
    · intro e; exact absurd e (by decide)
    · intro e; omega
  · rw [char_toLower_eq_letter c 's' (by decide) (by decide), hcs]
    omega

/-- What `EqualFold` accepts against `"yes"`: three runes, the first `y` or `Y`, the second
`e` or `E`, the third `s`, `S` or the long s. -/
theorem strings.EqualFold_yes (t : String) :
    strings.EqualFold t "yes" = true ↔
      ∃ a b c : Char, t.data = [a, b, c] ∧ (a.toNat = 0x79 ∨ a.toNat = 0x59) ∧
        (b.toNat = 0x65 ∨ b.toNat = 0x45) ∧
        (c.toNat = 0x73 ∨ c.toNat = 0x53 ∨ c.toNat = 0x17F) := by
  have hy := fun c : Nat =>
    strings.foldStep_letter c 0x79 (by omega) (by omega) (by omega) (by omega)
  have he := fun c : Nat =>
    strings.foldStep_letter c 0x65 (by omega) (by omega) (by omega) (by omega)
  have hdata : ("yes" : String).data = ['y', 'e', 's'] := rfl
  have hcy : ('y' : Char).toNat = 0x79 := rfl
  have hce : ('e' : Char).toNat = 0x65 := rfl
  have hcs : ('s' : Char).toNat = 0x73 := rfl
  unfold strings.EqualFold
  rw [hdata]
  match t.data with
  | [] => simp [strings.EqualFold.loop]
  | [a] => simp [strings.EqualFold.loop]
  | [a, b] => simp [strings.EqualFold.loop]
  | [a, b, c] =>
    simp [strings.EqualFold.loop, hcy, hce, hcs, hy, he, strings.foldStep_s]
    constructor
    · intro h; exact ⟨a, b, c, ⟨rfl, rfl, rfl⟩, h⟩
    · rintro ⟨_, _, _, ⟨rfl, rfl, rfl⟩, h⟩; exact h
  | a :: b :: c :: d :: rest => simp [strings.EqualFold.loop]

/-- What equals `"yes"` case-insensitively: three runes, the first `y` or `Y`, the second
`e` or `E`, the third `s`, `S` or the long s. -/
theorem equalsIgnoringCase_yes (t : String) :
    equalsIgnoringCase t "yes" = true ↔
      ∃ a b c : Char, t.data = [a, b, c] ∧ (a.toNat = 0x79 ∨ a.toNat = 0x59) ∧
        (b.toNat = 0x65 ∨ b.toNat = 0x45) ∧
        (c.toNat = 0x73 ∨ c.toNat = 0x53 ∨ c.toNat = 0x17F) := by
  have hy := fun c : Char =>
    caseFold_eq_letter c 'y' (by decide) (by decide) (by decide) (by decide)
  have he := fun c : Char =>
    caseFold_eq_letter c 'e' (by decide) (by decide) (by decide) (by decide)
  have hdata : (("yes" : String).data.map caseFold) = ['y', 'e', 's'] := by decide
  have hcy : ('y' : Char).toNat = 0x79 := rfl
  have hce : ('e' : Char).toNat = 0x65 := rfl
  unfold equalsIgnoringCase
  rw [hdata, beq_iff_eq]
  match t.data with
  | [] => simp
  | [a] => simp
  | [a, b] => simp
  | [a, b, c] =>
    simp [hy, he, caseFold_eq_s, hcy, hce]
    constructor
    · intro h; exact ⟨a, b, c, ⟨rfl, rfl, rfl⟩, h⟩
    · rintro ⟨_, _, _, ⟨rfl, rfl, rfl⟩, h⟩; exact h
  | a :: b :: c :: d :: rest => simp

/-- The comparison of the handler in the specification's terms: `EqualFold` against `"yes"`,
which walks fold orbits rune by rune, decides case-insensitive equality with `"yes"`. -/
theorem strings.EqualFold_yes_eq (t : String) :
    strings.EqualFold t "yes" = equalsIgnoringCase t "yes" := by
  rw [Bool.eq_iff_iff, strings.EqualFold_yes, equalsIgnoringCase_yes]

/-- Simple case folding identifies the long s with `s`: `"yeſ"` is among the strings that
`EqualFold` takes for `"yes"`, and it equals `"yes"` case-insensitively. -/
theorem strings.EqualFold_long_s :
    strings.EqualFold "yeſ" "yes" = true ∧ equalsIgnoringCase "yeſ" "yes" = true := by
  decide

/-! ### Trimming -/

/-- Dropping a prefix all of whose elements satisfy the test. -/
theorem dropWhile_append_of_all {α : Type} (f : α → Bool) (pre l : List α)
    (h : ∀ x ∈ pre, f x = true) : (pre ++ l).dropWhile f = l.dropWhile f := by
  induction pre with
  | nil => rfl
  | cons x xs ih =>
    have hx : f x = true := h x (List.mem_cons_self x xs)
    rw [List.cons_append, List.dropWhile_cons, if_pos hx]
    exact ih (fun y hy => h y (List.mem_cons_of_mem x hy))

/-- Trimming a string made of white space, a core that starts and ends with a rune that is
not white space, and white space again, gives the core. -/
theorem strings.TrimSpace_padded (pre post core : String) (a z : Char) (mid : List Char)
    (hpre : isBlank pre = true) (hpost : isBlank post = true)
    (hcore : core.data = a :: (mid ++ [z]))
    (ha : unicode.IsSpace a = false) (hz : unicode.IsSpace z = false) :
    strings.TrimSpace (pre ++ core ++ post) = core := by
  have h1 : ∀ x ∈ pre.data, unicode.IsSpace x = true := by
    simpa [isBlank] using hpre
  have h2 : ∀ x ∈ post.data.reverse, unicode.IsSpace x = true := by
    simpa [isBlank] using hpost
  apply String.ext
  simp only [strings.TrimSpace, strings.TrimLeftFunc, strings.TrimRightFunc,
    String.data_append, hcore, List.append_assoc]
  rw [dropWhile_append_of_all _ _ _ h1]
  have e1 : (a :: (mid ++ ([z] ++ post.data))).dropWhile unicode.IsSpace =
      a :: (mid ++ ([z] ++ post.data)) := by
    simp [List.dropWhile_cons, ha]
  have e2 : (a :: (mid ++ ([z] ++ post.data))).reverse =
      post.data.reverse ++ (z :: (mid.reverse ++ [a])) := by
    simp
  have e3 : (z :: (mid.reverse ++ [a])).dropWhile unicode.IsSpace =
      z :: (mid.reverse ++ [a]) := by
    simp [List.dropWhile_cons, hz]
  rw [List.cons_append, List.append_assoc, e1, e2, dropWhile_append_of_all _ _ _ h2, e3]
  simp

/-! ### Formatting -/

/-- The format of the deleted response, filled in. -/
theorem fmt.Sprintf_deleted (id : String) :
    fmt.Sprintf "Customer %s deleted." id = "Customer " ++ id ++ " deleted." :=
  rfl

/-- The format of the cancelled response, filled in. -/
theorem fmt.Sprintf_cancelled (id : String) :
    fmt.Sprintf "Deletion cancelled for %s." id = "Deletion cancelled for " ++ id ++ "." :=
  rfl

/-- The error that the handler builds around the cause `err`. -/
theorem fmt.Errorf_eliciting (err : GoError) :
    fmt.Errorf "eliciting failed: %w" err =
      .wrapError ("eliciting failed: " ++ err.Error) err := by
  unfold fmt.Errorf
  congr 1
  apply String.ext
  have hdata : ("eliciting failed: %w" : String).data =
      "eliciting failed: ".data ++ ['%', 'w'] := by decide
  rw [hdata]
  simp [fmt.doPrintf]

/-! ### The handler after the elicitation has returned -/

/-- What the handler returns when the elicitation returned `result` and no error. -/
theorem runTool_of_no_error (Elicit : mcp.ElicitParams → mcp.ElicitReturn)
    (params : DeleteCustomerParams) (result : Option mcp.ElicitResult)
    (h : Elicit (deleteCustomer params).request = ⟨result, none⟩) :
    runTool Elicit (deleteCustomer params) =
      ⟨some { Content := [.TextContent
        (deleteCustomer.message (deleteCustomer.confirmed result) params)] }, none, none⟩ := by
  unfold runTool
  rw [h]
  rfl

/-- The response text on confirmation. -/
theorem deleteCustomer.message_true (id : String) :
    deleteCustomer.message true ⟨id⟩ = "Customer " ++ id ++ " deleted." :=
  rfl

/-- The response text without confirmation. -/
theorem deleteCustomer.message_false (id : String) :
    deleteCustomer.message false ⟨id⟩ = "Deletion cancelled for " ++ id ++ "." :=
  rfl

/-- On an accepted result with a value under "confirm", `confirmed` is the coercion of the value. -/
theorem deleteCustomer.confirmed_accept (content : List (String × Value)) (value : Value)
    (h : content.lookup "confirm" = some value) :
    deleteCustomer.confirmed (some ⟨"accept", content⟩) = deleteCustomer.coerce value := by
  simp [deleteCustomer.confirmed, h]

/-- A deleted response and a cancelled response differ in their first letter. -/
theorem deleted_ne_cancelled (id1 id2 : String) :
    "Customer " ++ id1 ++ " deleted." ≠ "Deletion cancelled for " ++ id2 ++ "." := by
  intro h
  have h2 := congrArg String.data h
  simp at h2

/-- The deleted response determines the identifier. -/
theorem deleted_injective (id1 id2 : String)
    (h : "Customer " ++ id1 ++ " deleted." = "Customer " ++ id2 ++ " deleted.") : id1 = id2 := by
  have h2 := congrArg String.data h
  simp at h2
  exact String.ext h2

/-- The cancelled response determines the identifier. -/
theorem cancelled_injective (id1 id2 : String)
    (h : "Deletion cancelled for " ++ id1 ++ "." = "Deletion cancelled for " ++ id2 ++ ".") :
    id1 = id2 := by
  have h2 := congrArg String.data h
  simp at h2
  exact String.ext h2

/-! ## The claims -/

/-- C1: when the elicitation returns without error, with action "accept" and a content that
maps "confirm" to the boolean `b`, `deleteCustomer` returns no error and a result whose
single text is "Customer <id> deleted." if `b` is true and "Deletion cancelled for <id>." if
`b` is false: the boolean is used directly. -/
theorem deleteCustomer_accept_bool (Elicit : mcp.ElicitParams → mcp.ElicitReturn)
    (id : String) (b : Bool) (content : List (String × Value))
    (hret : Elicit (deleteCustomer ⟨id⟩).request = ⟨some ⟨"accept", content⟩, none⟩)
    (hconfirm : content.lookup "confirm" = some (.bool b)) :
    deleteCustomer.confirmed (some ⟨"accept", content⟩) = b ∧
    runTool Elicit (deleteCustomer ⟨id⟩) =
      ⟨some { Content := [.TextContent
        (if b = true then "Customer " ++ id ++ " deleted."
          else "Deletion cancelled for " ++ id ++ ".")] }, none, none⟩ := by
  have hc : deleteCustomer.confirmed (some ⟨"accept", content⟩) = b := by
    rw [deleteCustomer.confirmed_accept content _ hconfirm]
    rfl
  refine ⟨hc, ?_⟩
  rw [runTool_of_no_error Elicit _ _ hret, hc]
  cases b
  · rw [deleteCustomer.message_false]; rfl
  · rw [deleteCustomer.message_true]; rfl

/-- The session accepts with `confirm = true` for customer 42: the customer is reported deleted. -/
theorem deleteCustomer_accept_bool_witness :
    deleteCustomer.confirmed (some ⟨"accept", [("confirm", .bool true)]⟩) = true ∧
    runTool (fun _ => ⟨some ⟨"accept", [("confirm", .bool true)]⟩, none⟩)
        (deleteCustomer ⟨"42"⟩) =
      ⟨some { Content := [.TextContent "Customer 42 deleted."] }, none, none⟩ :=
  deleteCustomer_accept_bool (fun _ => ⟨some ⟨"accept", [("confirm", .bool true)]⟩, none⟩)
    "42" true [("confirm", .bool true)] rfl rfl

/-- C2: when the elicitation returns without error a result whose action is any string
other than "accept", then whatever the content is (also one that maps "confirm" to the
boolean true or to "yes"), `deleteCustomer` treats confirmation as false and returns the
text "Deletion cancelled for <id>.". -/
theorem deleteCustomer_not_accepted (Elicit : mcp.ElicitParams → mcp.ElicitReturn)
    (id action : String) (content : List (String × Value))
    (hret : Elicit (deleteCustomer ⟨id⟩).request = ⟨some ⟨action, content⟩, none⟩)
    (haction : action ≠ "accept") :
    deleteCustomer.confirmed (some ⟨action, content⟩) = false ∧
    runTool Elicit (deleteCustomer ⟨id⟩) =
      ⟨some { Content := [.TextContent ("Deletion cancelled for " ++ id ++ ".")] },
        none, none⟩ := by
  have hc : deleteCustomer.confirmed (some ⟨action, content⟩) = false := by
    simp [deleteCustomer.confirmed, haction]
  refine ⟨hc, ?_⟩
  rw [runTool_of_no_error Elicit _ _ hret, hc, deleteCustomer.message_false]

/-- The session declines, although the content carries `confirm = true`: the deletion is cancelled. -/
theorem deleteCustomer_not_accepted_witness :
    deleteCustomer.confirmed (some ⟨"decline", [("confirm", .bool true)]⟩) = false ∧
    runTool (fun _ => ⟨some ⟨"decline", [("confirm", .bool true)]⟩, none⟩)
        (deleteCustomer ⟨"42"⟩) =
      ⟨some { Content := [.TextContent "Deletion cancelled for 42."] }, none, none⟩ :=
  deleteCustomer_not_accepted (fun _ => ⟨some ⟨"decline", [("confirm", .bool true)]⟩, none⟩)
    "42" "decline" [("confirm", .bool true)] rfl (by decide)

/-- C3: when the elicitation call fails with the error `e` (whatever result comes with it),
`deleteCustomer` returns no result and an error that wraps `e` and whose message is
"eliciting failed: " followed by the message of `e`; no text, "Deletion cancelled for <id>."
or "Customer <id> deleted.", is produced. -/
theorem deleteCustomer_elicit_error (Elicit : mcp.ElicitParams → mcp.ElicitReturn)
    (id : String) (result : Option mcp.ElicitResult) (e : GoError)
    (hret : Elicit (deleteCustomer ⟨id⟩).request = ⟨result, some e⟩) :
    ∃ err : GoError, runTool Elicit (deleteCustomer ⟨id⟩) = ⟨none, none, some err⟩ ∧
      err.Unwrap = some e ∧ err.Error = "eliciting failed: " ++ e.Error := by
  refine ⟨fmt.Errorf "eliciting failed: %w" e, ?_, ?_, ?_⟩
  · unfold runTool
    rw [hret]
    rfl
  · rw [fmt.Errorf_eliciting]; rfl
  · rw [fmt.Errorf_eliciting]; rfl

/-- The session fails with "session closed": the handler fails with the wrapping error. -/
theorem deleteCustomer_elicit_error_witness :
    ∃ err : GoError,
      runTool (fun _ => ⟨none, some (.plain "session closed")⟩) (deleteCustomer ⟨"42"⟩) =
        ⟨none, none, some err⟩ ∧
      err.Unwrap = some (.plain "session closed") ∧
      err.Error = "eliciting failed: " ++ (GoError.plain "session closed").Error :=
  deleteCustomer_elicit_error (fun _ => ⟨none, some (.plain "session closed")⟩) "42" none
    (.plain "session closed") rfl

/-- C4: when the elicitation is accepted and the content maps "confirm" to the string `s`,
`deleteCustomer` treats confirmation as true if and only if `s` without its leading and
trailing white space equals "yes" case-insensitively (under simple Unicode case folding,
the case-insensitivity of `strings.EqualFold`); every other string is treated as false, and
so are "true" and "1". -/
theorem deleteCustomer_string_rule (content : List (String × Value)) (s : String)
    (hconfirm : content.lookup "confirm" = some (.string s)) :
    (deleteCustomer.confirmed (some ⟨"accept", content⟩) = true ↔
      equalsIgnoringCase (strings.TrimSpace s) "yes" = true) ∧
    (equalsIgnoringCase (strings.TrimSpace s) "yes" = false →
      deleteCustomer.confirmed (some ⟨"accept", content⟩) = false) ∧
    deleteCustomer.confirmed (some ⟨"accept", [("confirm", .string "true")]⟩) = false ∧
    deleteCustomer.confirmed (some ⟨"accept", [("confirm", .string "1")]⟩) = false := by
  have h : deleteCustomer.confirmed (some ⟨"accept", content⟩) =
      equalsIgnoringCase (strings.TrimSpace s) "yes" := by
    rw [deleteCustomer.confirmed_accept content _ hconfirm]
    exact strings.EqualFold_yes_eq (strings.TrimSpace s)
  refine ⟨by rw [h], fun hne => by rw [h, hne], by decide, by decide⟩

/-- The accepted strings " Yes\n" and "yes, please": the first is a confirmation and equals
"yes" case-insensitively once trimmed, the second is neither. -/
theorem deleteCustomer_string_rule_witness :
    ((deleteCustomer.confirmed (some ⟨"accept", [("confirm", .string " Yes\n")]⟩) = true ↔
        equalsIgnoringCase (strings.TrimSpace " Yes\n") "yes" = true) ∧
      deleteCustomer.confirmed (some ⟨"accept", [("confirm", .string " Yes\n")]⟩) = true) ∧
    deleteCustomer.confirmed
      (some ⟨"accept", [("confirm", .string "yes, please")]⟩) = false :=
  ⟨⟨(deleteCustomer_string_rule [("confirm", .string " Yes\n")] " Yes\n" rfl).1, by decide⟩,
    (deleteCustomer_string_rule [("confirm", .string "yes, please")] "yes, please" rfl).2.1
      (by decide)⟩

/-- C5: when the elicitation returns action "accept" with a content that has no "confirm"
key (the empty mapping, or a mapping with other keys only), `deleteCustomer` treats
confirmation as false and returns the text "Deletion cancelled for <id>.". -/
theorem deleteCustomer_confirm_absent (Elicit : mcp.ElicitParams → mcp.ElicitReturn)
    (id : String) (content : List (String × Value))
    (hret : Elicit (deleteCustomer ⟨id⟩).request = ⟨some ⟨"accept", content⟩, none⟩)
    (habsent : content.lookup "confirm" = none) :
    deleteCustomer.confirmed (some ⟨"accept", content⟩) = false ∧
    runTool Elicit (deleteCustomer ⟨id⟩) =
      ⟨some { Content := [.TextContent ("Deletion cancelled for " ++ id ++ ".")] },
        none, none⟩ := by
  have hc : deleteCustomer.confirmed (some ⟨"accept", content⟩) = false := by
    simp [deleteCustomer.confirmed, habsent]
  refine ⟨hc, ?_⟩
  rw [runTool_of_no_error Elicit _ _ hret, hc, deleteCustomer.message_false]

/-- The session accepts with the key "confirmed" only: the deletion is cancelled. -/
theorem deleteCustomer_confirm_absent_witness :
    deleteCustomer.confirmed (some ⟨"accept", [("confirmed", .bool true)]⟩) = false ∧
    runTool (fun _ => ⟨some ⟨"accept", [("confirmed", .bool true)]⟩, none⟩)
        (deleteCustomer ⟨"42"⟩) =
      ⟨some { Content := [.TextContent "Deletion cancelled for 42."] }, none, none⟩ :=
  deleteCustomer_confirm_absent
    (fun _ => ⟨some ⟨"accept", [("confirmed", .bool true)]⟩, none⟩) "42"
    [("confirmed", .bool true)] rfl rfl

/-- C6: on an accepted elicitation whose content maps "confirm" to the value `v`, the
confirmation of `deleteCustomer` is the three-way match over the variant boolean / string /
other (string representation): a boolean is used directly, a string is confirmed when,
trimmed, it equals "yes" case-insensitively, and a value that is neither (number, null, list,
object) gets the same string rule applied to its default text rendering: it is confirmed if
and only if the trimmed rendering equals "yes" case-insensitively, exactly as an accepted
elicitation that submits the rendering as a string. -/
theorem deleteCustomer_coerce_three_way (content : List (String × Value)) (v : Value)
    (hconfirm : content.lookup "confirm" = some v) :
    deleteCustomer.confirmed (some ⟨"accept", content⟩) =
      FieldValue.threeWayMatch (fun s => equalsIgnoringCase (strings.TrimSpace s) "yes")
        (FieldValue.ofValue v) ∧
    ((∀ b, v ≠ .bool b) → (∀ s, v ≠ .string s) →
      FieldValue.ofValue v = .other (fmt.Sprint v) ∧
      (deleteCustomer.confirmed (some ⟨"accept", content⟩) = true ↔
        equalsIgnoringCase (strings.TrimSpace (fmt.Sprint v)) "yes" = true) ∧
      deleteCustomer.confirmed (some ⟨"accept", content⟩) =
        deleteCustomer.confirmed
          (some ⟨"accept", [("confirm", .string (fmt.Sprint v))]⟩)) := by
  have hstr : ∀ s : String,
      deleteCustomer.confirmed (some ⟨"accept", [("confirm", .string s)]⟩) =
        equalsIgnoringCase (strings.TrimSpace s) "yes" := by
    intro s
    rw [deleteCustomer.confirmed_accept [("confirm", .string s)] (.string s) rfl]
    exact strings.EqualFold_yes_eq (strings.TrimSpace s)
  rw [deleteCustomer.confirmed_accept content v hconfirm]
  constructor
  · cases v with
    | bool b => rfl
    | string s => exact strings.EqualFold_yes_eq (strings.TrimSpace s)
    | nil => exact strings.EqualFold_yes_eq _
    | float64 text => exact strings.EqualFold_yes_eq _
    | slice elems => exact strings.EqualFold_yes_eq _
    | map entries => exact strings.EqualFold_yes_eq _
  · intro hb hs
    have h1 : deleteCustomer.coerce v =
        equalsIgnoringCase (strings.TrimSpace (fmt.Sprint v)) "yes" := by
      cases v with
      | bool b => exact absurd rfl (hb b)
      | string s => exact absurd rfl (hs s)
      | nil => exact strings.EqualFold_yes_eq _
      | float64 text => exact strings.EqualFold_yes_eq _
      | slice elems => exact strings.EqualFold_yes_eq _
      | map entries => exact strings.EqualFold_yes_eq _
    have h2 : FieldValue.ofValue v = .other (fmt.Sprint v) := by
      cases v with
      | bool b => exact absurd rfl (hb b)
      | string s => exact absurd rfl (hs s)
      | nil => rfl
      | float64 text => rfl
      | slice elems => rfl
      | map entries => rfl
    exact ⟨h2, by rw [h1], by rw [h1, hstr]⟩

/-- The accepted list holding the string "yes": it is matched as the variant other with the
rendering `[yes]`, and it is not a confirmation, like the accepted string "[yes]". -/
theorem deleteCustomer_coerce_three_way_witness :
    deleteCustomer.confirmed
        (some ⟨"accept", [("id", .nil), ("confirm", .slice [.string "yes"])]⟩) =
      FieldValue.threeWayMatch (fun s => equalsIgnoringCase (strings.TrimSpace s) "yes")
        (FieldValue.ofValue (.slice [.string "yes"])) ∧
    FieldValue.ofValue (.slice [.string "yes"]) = .other "[yes]" ∧
    (deleteCustomer.confirmed
        (some ⟨"accept", [("id", .nil), ("confirm", .slice [.string "yes"])]⟩) = true ↔
      equalsIgnoringCase (strings.TrimSpace "[yes]") "yes" = true) ∧
    deleteCustomer.confirmed
        (some ⟨"accept", [("id", .nil), ("confirm", .slice [.string "yes"])]⟩) =
      deleteCustomer.confirmed (some ⟨"accept", [("confirm", .string "[yes]")]⟩) :=
  ⟨(deleteCustomer_coerce_three_way [("id", .nil), ("confirm", .slice [.string "yes"])]
      (.slice [.string "yes"]) rfl).1,
    (deleteCustomer_coerce_three_way [("id", .nil), ("confirm", .slice [.string "yes"])]
      (.slice [.string "yes"]) rfl).2 (fun b h => by cases h) (fun s h => by cases h)⟩

/-- C7: on an accepted elicitation, every upper/lower-case spelling of the letters y-e-s
with any amount of white space before and after it is treated as confirmed, and each of the
strings "no", "true" and "" is treated as not confirmed. -/
theorem deleteCustomer_yes_spellings :
    (∀ (pre post core : String) (content : List (String × Value)),
      isBlank pre = true → isBlank post = true → core ∈ yesSpellings →
      content.lookup "confirm" = some (.string (pre ++ core ++ post)) →
      deleteCustomer.confirmed (some ⟨"accept", content⟩) = true) ∧
    (∀ (s : String) (content : List (String × Value)),
      s ∈ ["no", "true", ""] → content.lookup "confirm" = some (.string s) →
      deleteCustomer.confirmed (some ⟨"accept", content⟩) = false) := by
  constructor
  · intro pre post core content hpre hpost hcore hl
    rw [deleteCustomer.confirmed_accept content _ hl]
    show strings.EqualFold (strings.TrimSpace (pre ++ core ++ post)) "yes" = true
    simp only [yesSpellings, List.mem_cons, List.mem_singleton, List.not_mem_nil,
      or_false] at hcore
    rcases hcore with h | h | h | h | h | h | h | h
    · subst h
      rw [strings.TrimSpace_padded pre post "yes" 'y' 's' ['e'] hpre hpost rfl (by decide)
        (by decide)]
      decide
    · subst h
      rw [strings.TrimSpace_padded pre post "yeS" 'y' 'S' ['e'] hpre hpost rfl (by decide)
        (by decide)]
      decide
    · subst h
      rw [strings.TrimSpace_padded pre post "yEs" 'y' 's' ['E'] hpre hpost rfl (by decide)
        (by decide)]
      decide
    · subst h
      rw [strings.TrimSpace_padded pre post "yES" 'y' 'S' ['E'] hpre hpost rfl (by decide)
        (by decide)]
      decide
    · subst h
      rw [strings.TrimSpace_padded pre post "Yes" 'Y' 's' ['e'] hpre hpost rfl (by decide)
        (by decide)]
      decide
    · subst h
      rw [strings.TrimSpace_padded pre post "YeS" 'Y' 'S' ['e'] hpre hpost rfl (by decide)
        (by decide)]
      decide
    · subst h
      rw [strings.TrimSpace_padded pre post "YEs" 'Y' 's' ['E'] hpre hpost rfl (by decide)
        (by decide)]
      decide
    · subst h
      rw [strings.TrimSpace_padded pre post "YES" 'Y' 'S' ['E'] hpre hpost rfl (by decide)
        (by decide)]
      decide
  · intro s content hs hl
    rw [deleteCustomer.confirmed_accept content _ hl]
    simp only [List.mem_cons, List.mem_singleton, List.not_mem_nil, or_false] at hs
    rcases hs with h | h | h <;> subst h <;> decide

/-- The string made of a tab, a space, "yEs" and a line feed is confirmed; "no" is not. -/
theorem deleteCustomer_yes_spellings_witness :
    deleteCustomer.confirmed (some ⟨"accept", [("confirm", .string ("\t " ++ "yEs" ++ "\n"))]⟩)
        = true ∧
      deleteCustomer.confirmed (some ⟨"accept", [("confirm", .string "no")]⟩) = false :=
  ⟨deleteCustomer_yes_spellings.1 "\t " "\n" "yEs" _ (by decide) (by decide) (by decide) rfl,
    deleteCustomer_yes_spellings.2 "no" _ (by decide) rfl⟩

/-- C8: the elicitation failing is the only way `deleteCustomer` fails: whenever the
elicitation returns without error (an absent result, any action, any content), it returns no
error and a result with exactly one text item, which is "Customer <id> deleted." or
"Deletion cancelled for <id>.". -/
theorem deleteCustomer_total (Elicit : mcp.ElicitParams → mcp.ElicitReturn) (id : String)
    (hret : (Elicit (deleteCustomer ⟨id⟩).request).err = none) :
    ∃ text : String,
      runTool Elicit (deleteCustomer ⟨id⟩) =
        ⟨some { Content := [.TextContent text] }, none, none⟩ ∧
      (text = "Customer " ++ id ++ " deleted." ∨
        text = "Deletion cancelled for " ++ id ++ ".") := by
  have h : Elicit (deleteCustomer ⟨id⟩).request =
      ⟨(Elicit (deleteCustomer ⟨id⟩).request).result, none⟩ := by
    rw [← hret]
  refine ⟨_, runTool_of_no_error Elicit _ _ h, ?_⟩
  cases deleteCustomer.confirmed (Elicit (deleteCustomer ⟨id⟩).request).result
  · exact Or.inr (deleteCustomer.message_false id)
  · exact Or.inl (deleteCustomer.message_true id)

/-- The session returns neither a result nor an error: the handler answers with one text. -/
theorem deleteCustomer_total_witness :
    ∃ text : String,
      runTool (fun _ => ⟨none, none⟩) (deleteCustomer ⟨"42"⟩) =
        ⟨some { Content := [.TextContent text] }, none, none⟩ ∧
      (text = "Customer " ++ "42" ++ " deleted." ∨
        text = "Deletion cancelled for " ++ "42" ++ ".") :=
  deleteCustomer_total (fun _ => ⟨none, none⟩) "42" rfl

/-- C9: whatever the customer identifier, the elicitation request that `deleteCustomer` sends
is the same: its message is the empty string, and its schema is an object with description
"Confirm the deletion of the data.", exactly one property, "confirm", of type boolean, and
the required list ["confirm"]. -/
theorem deleteCustomer_request (params : DeleteCustomerParams) :
    (deleteCustomer params).request.Message = "" ∧
    (∃ schema prop : jsonschema.Schema,
      (deleteCustomer params).request.RequestedSchema = some schema ∧
      schema.type = "object" ∧
      schema.description = "Confirm the deletion of the data." ∧
      schema.properties = [("confirm", prop)] ∧
      prop.type = "boolean" ∧
      schema.required = ["confirm"]) ∧
    (∀ other : DeleteCustomerParams,
      (deleteCustomer other).request = (deleteCustomer params).request) :=
  ⟨rfl, ⟨_, _, rfl, rfl, rfl, rfl, rfl, rfl⟩, fun _ => rfl⟩

/-- C10: the response text determines the outcome and the identifier: equal messages come
from the same confirmation outcome and the same identifier; in particular a cancelled
response never equals a deleted response, whatever the two identifiers. -/
theorem deleteCustomer_message_injective :
    (∀ (c1 c2 : Bool) (id1 id2 : String),
      deleteCustomer.message c1 ⟨id1⟩ = deleteCustomer.message c2 ⟨id2⟩ →
      c1 = c2 ∧ id1 = id2) ∧
    (∀ id1 id2 : String,
      deleteCustomer.message false ⟨id1⟩ ≠ deleteCustomer.message true ⟨id2⟩) := by
  constructor
  · intro c1 c2 id1 id2 h
    cases c1 <;> cases c2
    · rw [deleteCustomer.message_false, deleteCustomer.message_false] at h
      exact ⟨rfl, cancelled_injective id1 id2 h⟩
    · rw [deleteCustomer.message_false, deleteCustomer.message_true] at h
      exact absurd h.symm (deleted_ne_cancelled id2 id1)
    · rw [deleteCustomer.message_true, deleteCustomer.message_false] at h
      exact absurd h (deleted_ne_cancelled id1 id2)
    · rw [deleteCustomer.message_true, deleteCustomer.message_true] at h
      exact ⟨rfl, deleted_injective id1 id2 h⟩
  · intro id1 id2 h
    rw [deleteCustomer.message_false, deleteCustomer.message_true] at h
    exact deleted_ne_cancelled id2 id1 h.symm

/-- Two cancelled responses for the identifier "7 deleted.". -/
theorem deleteCustomer_message_injective_witness :
    deleteCustomer.message false ⟨"7 deleted."⟩ = deleteCustomer.message false ⟨"7 deleted."⟩ ∧
      (false = false ∧ "7 deleted." = "7 deleted.") :=
  ⟨rfl, deleteCustomer_message_injective.1 false false "7 deleted." "7 deleted." rfl⟩
